import Mathlib

/-!
Verification of the numeric core of `parametric_tSNE/core.py`.

Matrices are shallowly embedded as functions `Fin n → Fin m → ℝ`
(tensorflow / numpy float arrays idealised over the reals).  Concrete
float data fed in from outside (training points, betas, a user-supplied
distance matrix) is modelled over `ℚ`, since every floating-point datum
is a rational number; values produced by transcendental kernels
(`exp`, `log`, `pow`) live in `ℝ`.

In-place numpy mutation (`X_ *= zero_diags`) is modelled by state
passing: `_get_normed_sym_np_mut` returns both the function result and
the final contents of the caller's argument array.
-/

open Finset

/-- `DEFAULT_EPS = 1e-7` from core.py line 27. -/
noncomputable def DEFAULT_EPS : ℝ := 1e-7

/-- Modelled from the spec: `get_squared_cross_diff_np` is imported from
`utils`, which is not under `src/`.  Spec §4.1 (PairwiseDistance): given an
N×D point set, entry (i,j) is the squared Euclidean distance
`‖x_i − x_j‖²`.  Entries over ℚ since the input points are float data. -/
def get_squared_cross_diff_np {n D : ℕ} (X : Fin n → Fin D → ℚ) :
    Fin n → Fin n → ℚ :=
  fun i j => ∑ d, (X i d - X j d) ^ 2

/-- `_get_squared_cross_diff_tf` (core.py lines 79–105): tile the batch,
transpose the first two axes, subtract, square, and sum over axis 2. -/
noncomputable def _get_squared_cross_diff_tf {n D : ℕ}
    (X : Fin n → Fin D → ℝ) : Fin n → Fin n → ℝ :=
  let tiled : Fin n → Fin n → Fin D → ℝ := fun i _ d => X i d
  let tiled_trans : Fin n → Fin n → Fin D → ℝ := fun i j d => tiled j i d
  let diffs : Fin n → Fin n → Fin D → ℝ :=
    fun i j d => tiled i j d - tiled_trans i j d
  fun i j => ∑ d, (diffs i j d) ^ 2

/-- `_get_normed_sym_np` (core.py lines 108–128), with numpy's in-place
semantics made explicit.  `X_ *= zero_diags` writes through to the
caller's array; the remaining statements rebind the local name to fresh
arrays.  Returns `(function result, final contents of the argument)`. -/
noncomputable def _get_normed_sym_np_mut {n : ℕ}
    (X : Fin n → Fin n → ℝ) (eps : ℝ) :
    (Fin n → Fin n → ℝ) × (Fin n → Fin n → ℝ) :=
  let zero_diags : Fin n → Fin n → ℝ :=
    fun i j => 1 - (if i = j then 1 else 0)
  let X1 : Fin n → Fin n → ℝ := fun i j => X i j * zero_diags i j
  let norm_facs : Fin n → ℝ := fun j => ∑ i, X1 i j
  let X2 : Fin n → Fin n → ℝ := fun i j => X1 i j / (norm_facs j + eps)
  let X3 : Fin n → Fin n → ℝ := fun i j => 0.5 * (X2 i j + X2 j i)
  (X3, X1)

/-- The value returned by `_get_normed_sym_np` (core.py lines 108–128). -/
noncomputable def _get_normed_sym_np {n : ℕ}
    (X : Fin n → Fin n → ℝ) (eps : ℝ) : Fin n → Fin n → ℝ :=
  (_get_normed_sym_np_mut X eps).1

/-- `_get_normed_sym_tf` (core.py lines 131–150): set the diagonal to
zero with `tf.matrix_set_diag`, divide by the column sums (no epsilon),
then symmetrize.  The `batch_size` argument only shapes the zero vector
and is subsumed by the type index `n`. -/
noncomputable def _get_normed_sym_tf {n : ℕ}
    (X : Fin n → Fin n → ℝ) : Fin n → Fin n → ℝ :=
  let X1 : Fin n → Fin n → ℝ := fun i j => if i = j then 0 else X i j
  let norm_facs : Fin n → ℝ := fun j => ∑ i, X1 i j
  let X2 : Fin n → Fin n → ℝ := fun i j => X1 i j / norm_facs j
  fun i j => 0.5 * (X2 i j + X2 j i)

/-- The default path of `_make_P_ji` (core.py lines 30–47) with
`in_sq_diffs = None`: recompute the squared distances, multiply by the
betas with numpy broadcasting — the 1-d `(N,)` betas array aligns with
the LAST axis of the `(N,N)` matrix, so entry (i,j) picks up `betas j`
— and exponentiate: `P_ji = np.exp(-1.0 * tmp)`. -/
noncomputable def _make_P_ji_main {n D : ℕ} (input : Fin n → Fin D → ℚ)
    (betas : Fin n → ℚ) : Fin n → Fin n → ℝ :=
  let in_sq_diffs := get_squared_cross_diff_np input
  let tmp : Fin n → Fin n → ℚ := fun i j => in_sq_diffs i j * betas j
  fun i j => Real.exp ((-1.0 : ℝ) * ((tmp i j : ℚ) : ℝ))

/-- Total element count of a provided numpy array, modelled as a nested
list of rationals (float data is rational). -/
def ndarray_size (m : List (List ℚ)) : ℕ := m.flatten.length

/-- `_make_P_ji` (core.py lines 30–47) including the dispatch on the
optional `in_sq_diffs` argument.  The guard `if not in_sq_diffs:`
applies Python truth-testing to the argument: `None` and a size-0 array
are falsy (distances are recomputed), a 1-element array is falsy iff its
element is zero, and an array with more than one element raises numpy's
ambiguous-truth-value `ValueError`, modelled as the `Except.error`
branch.  When a truthy 1-element `(1,1)` array is supplied, numpy
broadcasting of `in_sq_diffs * betas` yields a `(1,N)` result. -/
noncomputable def _make_P_ji {n D : ℕ} (input : Fin n → Fin D → ℚ)
    (betas : Fin n → ℚ) (in_sq_diffs : Option (List (List ℚ))) :
    Except String (List (List ℝ)) :=
  match in_sq_diffs with
  | none =>
      .ok (List.ofFn fun i => List.ofFn fun j => _make_P_ji_main input betas i j)
  | some m =>
      match m.flatten with
      | [] =>
          .ok (List.ofFn fun i => List.ofFn fun j => _make_P_ji_main input betas i j)
      | [x] =>
          if x = 0 then
            .ok (List.ofFn fun i => List.ofFn fun j => _make_P_ji_main input betas i j)
          else
            .ok [List.ofFn fun j : Fin n =>
              Real.exp ((-1.0 : ℝ) * (((x * betas j : ℚ)) : ℝ))]
      | _ :: _ :: _ =>
          .error "The truth value of an array with more than one element is ambiguous. Use a.any() or a.all()"

/-- `_make_P_np` (core.py lines 50–66): compose the default path of
`_make_P_ji` with `_get_normed_sym_np` at the default epsilon. -/
noncomputable def _make_P_np {n D : ℕ} (input : Fin n → Fin D → ℚ)
    (betas : Fin n → ℚ) : Fin n → Fin n → ℝ :=
  _get_normed_sym_np (_make_P_ji_main input betas) DEFAULT_EPS

/-- `_make_Q` (core.py lines 153–176): Student-t kernel
`(1 + d²/α)^(−(α+1)/2)` on the output-space squared distances, then the
differentiable-graph normalization `_get_normed_sym_tf`. -/
noncomputable def _make_Q {n d : ℕ} (output : Fin n → Fin d → ℝ)
    (alpha : ℝ) : Fin n → Fin n → ℝ :=
  let out_sq_diffs := _get_squared_cross_diff_tf output
  let Q1 : Fin n → Fin n → ℝ :=
    fun i j => (1 + out_sq_diffs i j / alpha) ^ (-(alpha + 1) / 2)
  _get_normed_sym_tf Q1

/-- The body of `kl_loss` (core.py lines 200–210) once `Q_` has been
produced: `kl_matr = P ⊙ (log(P + ε) − log(Q + ε))`, the diagonal is
set to zero with `tf.matrix_set_diag`, and all entries are summed. -/
noncomputable def kl_core {n : ℕ} (P_ Q_ : Fin n → Fin n → ℝ)
    (eps : ℝ) : ℝ :=
  let kl_matr : Fin n → Fin n → ℝ :=
    fun i j => P_ i j * (Real.log (P_ i j + eps) - Real.log (Q_ i j + eps))
  let kl_matr_keep : Fin n → Fin n → ℝ :=
    fun i j => if i = j then 0 else kl_matr i j
  ∑ i, ∑ j, kl_matr_keep i j

/-- `kl_loss` (core.py lines 179–210): `Q_` is computed from the network
output `y_pred` by `_make_Q`, then the KL matrix is summed. -/
noncomputable def kl_loss {n d : ℕ} (y_true : Fin n → Fin n → ℝ)
    (y_pred : Fin n → Fin d → ℝ) (alpha : ℝ) (eps : ℝ) : ℝ :=
  kl_core y_true (_make_Q y_pred alpha) eps

/-- The `while cur_start < num_pts` chunk loop of `_calc_training_betas`
(core.py lines 296–306): process `beta_batch_size` rows at a time and
concatenate the per-chunk betas.  Fuel (one unit per data row) bounds
the recursion; with a positive chunk size each pass consumes at least
one row, so fuel `data.length` reproduces the Python loop exactly. -/
def betas_chunk_loop (f : List (List ℚ) → ℚ → List ℚ) (p : ℚ)
    (bbs : ℕ) : ℕ → List (List ℚ) → List ℚ
  | 0, _ => []
  | _, [] => []
  | fuel + 1, row :: rest =>
      f ((row :: rest).take bbs) p ++
        betas_chunk_loop f p bbs fuel ((row :: rest).drop bbs)

/-- `_calc_training_betas` (core.py lines 273–307).  The
`utils.calc_betas_loop` collaborator is not under `src/`; it is
abstracted as the argument `calc_betas_loop`, mapping a chunk of
training data and the perplexity to that chunk's betas.  The only
argument check in the source is `assert perplexity is not None`,
modelled as the `Except.error` branch; any `some` perplexity — positive
or not — proceeds straight into the chunked search loop. -/
def _calc_training_betas (calc_betas_loop : List (List ℚ) → ℚ → List ℚ)
    (training_data : List (List ℚ)) (perplexity : Option ℚ)
    (beta_batch_size : ℕ) : Except String (List ℚ) :=
  match perplexity with
  | none => .error "Must provide a desired perplexity if training bata values"
  | some p =>
      .ok (betas_chunk_loop calc_betas_loop p beta_batch_size
        training_data.length training_data)

/-- `num_steps` of `_make_train_generator` (core.py line 432):
`training_data.shape[0] // batch_size`. -/
def num_steps (N batch_size : ℕ) : ℕ := N / batch_size

/-- Slice bounds of the k-th batch yielded by `_make_train_generator`
(core.py lines 415–442).  `cur_step` starts at −1 and is advanced to
`(cur_step + 1) % num_steps` before each yield, so the k-th yield
(k = 0, 1, 2, …) uses `cur_step = k % num_steps` and slices rows
`[batch_size * cur_step, batch_size * (cur_step + 1))` of the training
data and betas. -/
def train_gen_bounds (N batch_size k : ℕ) : ℕ × ℕ :=
  let cur_step := k % num_steps N batch_size
  (batch_size * cur_step, batch_size * (cur_step + 1))

/-- C1 counterexample data: two 1-dimensional points at 0 and 1. -/
def c1_input : Fin 2 → Fin 1 → ℚ := fun i _ => if i = 0 then 0 else 1

/-- C1 counterexample data: distinct betas for the two points. -/
def c1_betas : Fin 2 → ℚ := fun i => if i = 0 then 1 else 2

/-- C2 counterexample data: zero diagonal, off-diagonal entries equal to
the default epsilon, a degenerate batch with near-zero column sums. -/
noncomputable def c2_X : Fin 2 → Fin 2 → ℝ :=
  fun i j => if i = j then 0 else 1e-7

/-- C3 witness data: off-diagonal entries 1, with garbage (negative)
diagonal entries, since the diagonal of the input is arbitrary. -/
noncomputable def c3_X : Fin 2 → Fin 2 → ℝ :=
  fun i j => if i = j then -5 else 1

/-- C6 counterexample data: the 2×2 identity matrix, whose diagonal is
nonzero so that the in-place `X_ *= zero_diags` visibly alters it. -/
noncomputable def c6_X : Fin 2 → Fin 2 → ℝ :=
  fun i j => if i = j then 1 else 0

/-- C5 counterexample data: a beta-search stub returning beta 1 for
every point of the chunk. -/
def c5_calc_betas_loop : List (List ℚ) → ℚ → List ℚ :=
  fun chunk _ => chunk.map (fun _ => 1)

/-- C9 witness data: a 2×1 distance array (more than one element). -/
def c9_m : List (List ℚ) := [[3], [4]]

/-- C9 witness data: a single 1-dimensional point. -/
def c9_input : Fin 1 → Fin 1 → ℚ := fun _ _ => 0

/-- C9 witness data: a single beta. -/
def c9_betas : Fin 1 → ℚ := fun _ => 1

/-- C8: for every point set, the pairwise squared-distance matrix computed
by `_get_squared_cross_diff_tf` is symmetric and has an exact-zero
diagonal. -/
theorem c8_sq_cross_diff_tf_symm_zero_diag {n D : ℕ}
    (X : Fin n → Fin D → ℝ) :
    (∀ i j, _get_squared_cross_diff_tf X i j = _get_squared_cross_diff_tf X j i)
      ∧ ∀ i, _get_squared_cross_diff_tf X i i = 0 := by
  constructor
  · intro i j
    unfold _get_squared_cross_diff_tf
    refine Finset.sum_congr rfl (fun d _ => ?_)
    ring
  · intro i
    unfold _get_squared_cross_diff_tf
    simp

/-- C1 (amended): with the default `in_sq_diffs = None`, `_make_P_ji`
returns the matrix whose entry (i,j) is `exp(−β_j · ‖x_i − x_j‖²)`:
numpy broadcasting selects the beta of the COLUMN point j (consistent
with the module's `X_(i,j) = P(i|j)` convention), broadcast down the
rows, not the beta of the row point i. -/
theorem c1_beta_column_broadcast {n D : ℕ} (input : Fin n → Fin D → ℚ)
    (betas : Fin n → ℚ) :
    _make_P_ji input betas none =
      .ok (List.ofFn fun i => List.ofFn fun j => _make_P_ji_main input betas i j)
    ∧ ∀ i j, _make_P_ji_main input betas i j =
        Real.exp (-((betas j : ℝ) * ∑ d, ((input i d : ℝ) - (input j d : ℝ)) ^ 2)) := by
  refine ⟨rfl, fun i j => ?_⟩
  unfold _make_P_ji_main get_squared_cross_diff_np
  congr 1
  push_cast
  ring

/-- C1 counterexample: for the two 1-dimensional points 0 and 1 with
betas (1, 2), the code's entry (0,1) is `exp(−β_1 · 1) = exp(−2)`,
which differs from the claimed `exp(−β_0 · dist(0,1)²) = exp(−1)`. -/
theorem c1_counterexample :
    _make_P_ji_main c1_input c1_betas 0 1 ≠
      Real.exp (-((c1_betas 0 : ℝ) *
        ∑ d, ((c1_input 0 d : ℝ) - (c1_input 1 d : ℝ)) ^ 2)) := by
  have hL : _make_P_ji_main c1_input c1_betas 0 1 = Real.exp (-2) := by
    unfold _make_P_ji_main get_squared_cross_diff_np
    norm_num [c1_input, c1_betas, Fin.sum_univ_one]
  have hR : Real.exp (-((c1_betas 0 : ℝ) *
      ∑ d, ((c1_input 0 d : ℝ) - (c1_input 1 d : ℝ)) ^ 2)) = Real.exp (-1) := by
    norm_num [c1_input, c1_betas, Fin.sum_univ_one]
  rw [hL, hR]
  intro hcontra
  rw [Real.exp_eq_exp] at hcontra
  norm_num at hcontra

/-- C2 (amended): the differentiable-graph normalization equals the
numpy normalization evaluated with epsilon 0 — the epsilon added to the
denominator is the only algebraic difference between the two paths. -/
theorem c2_tf_eq_np_eps_zero {n : ℕ} (X : Fin n → Fin n → ℝ) :
    _get_normed_sym_tf X = _get_normed_sym_np X 0 := by
  have key : ∀ a b : Fin n, X a b * (1 - if a = b then (1:ℝ) else 0) =
      if a = b then 0 else X a b := by
    intro a b
    by_cases hab : a = b <;> simp [hab]
  funext i j
  simp only [_get_normed_sym_tf, _get_normed_sym_np, _get_normed_sym_np_mut,
    key, add_zero]

/-- C2 counterexample: on the degenerate non-negative batch with zero
diagonal and off-diagonal entries `1e-7`, the numpy path yields entry
(0,1) = 1/2 while the differentiable path yields 1 — an absolute
disagreement of 1/2 on probabilities of magnitude at most 1, so the two
paths are not numerically equal within tolerance on all inputs. -/
theorem c2_counterexample :
    _get_normed_sym_np c2_X DEFAULT_EPS 0 1 = 1 / 2 ∧
    _get_normed_sym_tf c2_X 0 1 = 1 ∧
    |_get_normed_sym_np c2_X DEFAULT_EPS 0 1 - _get_normed_sym_tf c2_X 0 1| = 1 / 2 := by
  have h1 : _get_normed_sym_np c2_X DEFAULT_EPS 0 1 = 1 / 2 := by
    simp only [_get_normed_sym_np, _get_normed_sym_np_mut, c2_X, DEFAULT_EPS]
    norm_num [Fin.sum_univ_two]
  have h2 : _get_normed_sym_tf c2_X 0 1 = 1 := by
    simp only [_get_normed_sym_tf, c2_X]
    norm_num [Fin.sum_univ_two]
  refine ⟨h1, h2, ?_⟩
  rw [h1, h2]
  norm_num

/-- C3: for every input matrix that is non-negative off the diagonal
(the diagonal is arbitrary — it is zeroed first), the numpy
symmetrize-normalize output is exactly symmetric, has an exact-zero
diagonal, and is entrywise non-negative. -/
theorem c3_normed_sym_np_props {n : ℕ} (X : Fin n → Fin n → ℝ)
    (h : ∀ i j, i ≠ j → 0 ≤ X i j) :
    (∀ i j, _get_normed_sym_np X DEFAULT_EPS i j =
        _get_normed_sym_np X DEFAULT_EPS j i)
    ∧ (∀ i, _get_normed_sym_np X DEFAULT_EPS i i = 0)
    ∧ (∀ i j, 0 ≤ _get_normed_sym_np X DEFAULT_EPS i j) := by
  have hX1 : ∀ i j : Fin n, (0:ℝ) ≤ X i j * (1 - if i = j then 1 else 0) := by
    intro i j
    by_cases hij : i = j
    · simp [hij]
    · simp [hij, h i j hij]
  have hs : ∀ b : Fin n, (0:ℝ) ≤ ∑ a, X a b * (1 - if a = b then 1 else 0) :=
    fun b => Finset.sum_nonneg fun a _ => hX1 a b
  have heps : (0:ℝ) < DEFAULT_EPS := by norm_num [DEFAULT_EPS]
  refine ⟨fun i j => ?_, fun i => ?_, fun i j => ?_⟩
  · simp only [_get_normed_sym_np, _get_normed_sym_np_mut]
    ring
  · simp only [_get_normed_sym_np, _get_normed_sym_np_mut]
    simp
  · simp only [_get_normed_sym_np, _get_normed_sym_np_mut]
    have hc : (0:ℝ) ≤ 0.5 := by norm_num
    refine mul_nonneg hc (add_nonneg ?_ ?_)
    · exact div_nonneg (hX1 i j) (add_nonneg (hs j) heps.le)
    · exact div_nonneg (hX1 j i) (add_nonneg (hs i) heps.le)

/-- C3 witness: the theorem applied to a concrete 2×2 matrix with a
negative diagonal and off-diagonal entries 1. -/
theorem c3_witness :
    (∀ i j : Fin 2, i ≠ j → (0:ℝ) ≤ c3_X i j) ∧
    ((∀ i j, _get_normed_sym_np c3_X DEFAULT_EPS i j =
        _get_normed_sym_np c3_X DEFAULT_EPS j i)
      ∧ (∀ i, _get_normed_sym_np c3_X DEFAULT_EPS i i = 0)
      ∧ (∀ i j, 0 ≤ _get_normed_sym_np c3_X DEFAULT_EPS i j)) :=
  ⟨fun _ _ hij => by simp [c3_X, hij],
   c3_normed_sym_np_props c3_X (fun _ _ hij => by simp [c3_X, hij])⟩

/-- C4: the KL loss equals the sum over all off-diagonal pairs (i,j),
i ≠ j, of `P(i,j)·(log(P(i,j)+ε) − log(Q(i,j)+ε))` with
`Q = _make_Q y_pred alpha`; the diagonal is set to zero before
summation regardless of its upstream value. -/
theorem c4_kl_loss_offdiag_sum {n d : ℕ} (y_true : Fin n → Fin n → ℝ)
    (y_pred : Fin n → Fin d → ℝ) (alpha : ℝ) :
    kl_loss y_true y_pred alpha DEFAULT_EPS =
      ∑ i, ∑ j ∈ Finset.univ.filter (fun j => j ≠ i),
        y_true i j * (Real.log (y_true i j + DEFAULT_EPS) -
          Real.log (_make_Q y_pred alpha i j + DEFAULT_EPS)) := by
  unfold kl_loss kl_core
  refine Finset.sum_congr rfl fun i _ => ?_
  rw [Finset.sum_filter]
  refine Finset.sum_congr rfl fun j _ => ?_
  by_cases hij : i = j
  · simp [hij]
  · have hji : j ≠ i := fun hh => hij hh.symm
    simp [hij, hji]

/-- C7: the KL loss body evaluated with the output-space matrix equal to
the target matrix is exactly zero: every off-diagonal term becomes
`P(i,j)·(log(P(i,j)+ε) − log(P(i,j)+ε)) = 0`. -/
theorem c7_zero_self_divergence {n : ℕ} (P_ : Fin n → Fin n → ℝ) :
    kl_core P_ P_ DEFAULT_EPS = 0 := by
  unfold kl_core
  simp

/-- C5 counterexample: a negative perplexity (−1) is not rejected —
`_calc_training_betas` proceeds into the chunked search loop and
returns the stub's betas, instead of failing with an invalid-argument
condition. -/
theorem c5_counterexample :
    _calc_training_betas c5_calc_betas_loop [[0]] (some (-1)) 1000 = .ok [1] := by
  rfl

/-- C5 (amended): `_calc_training_betas` fails with its invalid-argument
condition exactly when the perplexity is unset (`None`); non-positive
perplexities are not checked and the search proceeds. -/
theorem c5_error_iff_none (f : List (List ℚ) → ℚ → List ℚ)
    (data : List (List ℚ)) (p : Option ℚ) (bbs : ℕ) :
    (∃ e, _calc_training_betas f data p bbs = .error e) ↔ p = none := by
  cases p <;> simp [_calc_training_betas]

/-- C6 counterexample: on the 2×2 identity matrix, `_get_normed_sym_np`
leaves the caller's argument array altered — `X_ *= zero_diags` zeroes
its diagonal in place — so the operation is not pure. -/
theorem c6_counterexample :
    (_get_normed_sym_np_mut c6_X DEFAULT_EPS).2 ≠ c6_X := by
  intro heq
  have h0 := congrFun (congrFun heq 0) 0
  simp [_get_normed_sym_np_mut, c6_X] at h0

/-- C6 (amended): the only mutation performed by `_get_normed_sym_np`
on the caller's array is zeroing its diagonal in place: after the call
the argument holds `X i j` off the diagonal and 0 on it. -/
theorem c6_mutation_zeroes_diagonal {n : ℕ} (X : Fin n → Fin n → ℝ)
    (eps : ℝ) :
    ∀ i j, (_get_normed_sym_np_mut X eps).2 i j = if i = j then 0 else X i j := by
  intro i j
  by_cases hij : i = j <;> simp [_get_normed_sym_np_mut, hij]

/-- C9: passing any array with more than one element as `in_sq_diffs`
makes `_make_P_ji` raise numpy's ambiguous-truth-value error before
computing anything, so the precomputed-distances parameter can never be
used with an actual distance matrix. -/
theorem c9_multielement_raises {n D : ℕ} (input : Fin n → Fin D → ℚ)
    (betas : Fin n → ℚ) (m : List (List ℚ)) (hm : 1 < ndarray_size m) :
    _make_P_ji input betas (some m) =
      .error "The truth value of an array with more than one element is ambiguous. Use a.any() or a.all()" := by
  unfold ndarray_size at hm
  rcases hflat : m.flatten with _ | ⟨x, _ | ⟨y, t⟩⟩
  · rw [hflat] at hm; simp at hm
  · rw [hflat] at hm; simp at hm
  · simp only [_make_P_ji, hflat]

/-- C9 witness: the theorem applied to a concrete 2×1 array. -/
theorem c9_witness :
    1 < ndarray_size c9_m ∧
    _make_P_ji c9_input c9_betas (some c9_m) =
      .error "The truth value of an array with more than one element is ambiguous. Use a.any() or a.all()" :=
  ⟨by decide, c9_multielement_raises c9_input c9_betas c9_m (by decide)⟩

/-- C10: with batch size B ≤ N, every row index sliced by the k-th
yield of `_make_train_generator` is below `⌊N/B⌋·B`, each batch has
exactly B rows (its upper bound also stays within the data), and the
bounds cycle with period `⌊N/B⌋`, so the trailing `N mod B` rows are
never yielded. -/
theorem c10_generator_batches (N B k : ℕ) (hB : 0 < B) (hBN : B ≤ N) :
    (∀ j : Fin B, (train_gen_bounds N B k).1 + (j : ℕ) < (N / B) * B)
    ∧ (train_gen_bounds N B k).2 = (train_gen_bounds N B k).1 + B
    ∧ (train_gen_bounds N B k).2 ≤ N
    ∧ train_gen_bounds N B (k + N / B) = train_gen_bounds N B k := by
  have hS : 0 < N / B := Nat.div_pos hBN hB
  have hmod : k % (N / B) + 1 ≤ N / B := Nat.succ_le_of_lt (Nat.mod_lt _ hS)
  have hhi : B * (k % (N / B) + 1) ≤ (N / B) * B := by
    calc B * (k % (N / B) + 1) ≤ B * (N / B) := Nat.mul_le_mul_left _ hmod
    _ = (N / B) * B := Nat.mul_comm _ _
  have hb1 : (train_gen_bounds N B k).1 = B * (k % (N / B)) := rfl
  have hb2 : (train_gen_bounds N B k).2 = B * (k % (N / B) + 1) := rfl
  refine ⟨fun j => ?_, ?_, ?_, ?_⟩
  · rw [hb1]
    have hj := j.isLt
    have hlt : B * (k % (N / B)) + (j : ℕ) < B * (k % (N / B) + 1) := by
      rw [Nat.mul_succ]; omega
    exact lt_of_lt_of_le hlt hhi
  · rw [hb1, hb2, Nat.mul_succ]
  · rw [hb2]
    exact le_trans hhi (Nat.div_mul_le_self N B)
  · unfold train_gen_bounds num_steps
    rw [Nat.add_mod_right]

/-- C10 witness: the theorem applied at N = 5, B = 2, k = 7. -/
theorem c10_witness :
    0 < 2 ∧ 2 ≤ 5 ∧
    ((∀ j : Fin 2, (train_gen_bounds 5 2 7).1 + (j : ℕ) < (5 / 2) * 2)
      ∧ (train_gen_bounds 5 2 7).2 = (train_gen_bounds 5 2 7).1 + 2
      ∧ (train_gen_bounds 5 2 7).2 ≤ 5
      ∧ train_gen_bounds 5 2 (7 + 5 / 2) = train_gen_bounds 5 2 7) :=
  ⟨by decide, by decide, c10_generator_batches 5 2 7 (by decide) (by decide)⟩
